import Mathlib

/-!
Verification development for the recurring-task scheduler and guild-state
reconciler of the `restriction-discord-bot` repository.

The embedding translates the reconciliation core of `src/index.ts`
(scheduler-bearing revision, `syncServers` / `syncCronJobs` / the cron
`onTick` callback) and the entity/admin-value declarations of
`database.ts` into executable Lean definitions.  Stateful code is
modelled by explicit state passing; the `await` suspension points of the
single-threaded cooperative runtime are modelled as explicit yield
markers in a straight-line operation list, so that the registry states
observable to concurrently scheduled tasks can be computed.
-/

namespace Sched

/-- Entity `RecurringMessage` from `database.ts`: identity, owning server,
target channel, body text, the send-as-embed flag and the embed color. -/
structure RecurringMessage where
  id : Nat
  serverId : String
  channelId : String
  text : String
  sendAsEmbed : Bool
  embedColor : String
deriving DecidableEq, Repr

/-- Entity `RecurringMessageTask` from `database.ts`: identity, foreign key
to a `RecurringMessage`, and the schedule fields (all stored as strings). -/
structure RecurringMessageTask where
  id : Nat
  recurringMessageId : Nat
  dayOfWeek : String
  utcTimeHour : String
  utcTimeMinute : String
deriving DecidableEq, Repr

/-- Entity `Server` from `database.ts` (the fields reconciliation touches). -/
structure Server where
  serverId : String
  name : String
deriving DecidableEq, Repr

/-- A live guild as seen through `client.guilds.cache`: its id and name. -/
structure Guild where
  id : String
  name : String
deriving DecidableEq, Repr

/-! ### Schedule compiler

`syncCronJobs` builds the cron expression with JavaScript
`String.prototype.replace` applied to the template
`'0 {min} {hour} * * {day}'`.  With a plain-string pattern, `replace`
substitutes the first occurrence of the pattern only.  We model it on
character lists.  (JavaScript additionally interprets `$`-sequences in
the replacement string; the stored schedule fields are digit strings and
day symbols, which contain no `$`, so that behaviour is irrelevant here
and is not modelled.) -/

/-- Test `startsWithL pat s`: whether `pat` is a prefix of `s`. -/
def startsWithL : List Char → List Char → Bool
  | [], _ => true
  | _ :: _, [] => false
  | p :: ps, c :: cs => p == c && startsWithL ps cs

/-- Replace the first occurrence of `pat` in `s` by `r`
(JavaScript `s.replace(pat, r)` for `$`-free `r`). -/
def replaceFirstL (pat r : List Char) : List Char → List Char
  | [] => if startsWithL pat [] then r else []
  | c :: cs =>
    if startsWithL pat (c :: cs) then r ++ (c :: cs).drop pat.length
    else c :: replaceFirstL pat r cs

/-- String wrapper for `replaceFirstL`. -/
def replaceFirst (s pat r : String) : String :=
  ⟨replaceFirstL pat.data r.data s.data⟩

/-- The cron template of `syncCronJobs`: `const cronTab = '0 {min} {hour} * * {day}'`. -/
def cronTab : String := "0 {min} {hour} * * {day}"

/-- The compiled cron expression for a task, exactly as `syncCronJobs`
computes `cronTabString`: substitute minute, then hour, then day of week. -/
def cronTabString (task : RecurringMessageTask) : String :=
  replaceFirst (replaceFirst (replaceFirst cronTab "{min}" task.utcTimeMinute)
    "{hour}" task.utcTimeHour) "{day}" task.dayOfWeek

/-! ### Admin-panel value sets

`database.ts` constrains the schedule fields through `availableValues`
in the AdminJS resource options for `RecurringMessageTask`. -/

/-- The `availableValues` list for `dayOfWeek`: the every-day wildcard and the
seven three-letter day symbols. -/
def dayOfWeekValues : List String :=
  ["*", "SUN", "MON", "TUE", "WED", "THU", "FRI", "SAT"]

/-- The `availableValues` list for `utcTimeHour`: `i.toString()` for `i < 24`. -/
def utcTimeHourValues : List String :=
  (List.range 24).map (fun i => toString i)

/-- The `availableValues` list for `utcTimeMinute`: `i.toString()` for `i < 60`. -/
def utcTimeMinuteValues : List String :=
  (List.range 60).map (fun i => toString i)

/-! ### Cron trigger validity

`CronJob.from` is supplied by the external `cron` package and throws
when its `cronTime` expression is invalid; that package is not part of
this repository. -/

/-- Modelled from the spec: the schedule compiler "fails only if the
definition's fields are not representable" as a valid trigger.  We take a
definition to be representable exactly when each schedule field lies in
the admin panel's `availableValues` set for that field, which is the
domain the spec's data model describes (day symbol or wildcard, hour
0-23, minute 0-59). -/
def representableTask (t : RecurringMessageTask) : Bool :=
  dayOfWeekValues.contains t.dayOfWeek &&
    utcTimeHourValues.contains t.utcTimeHour &&
    utcTimeMinuteValues.contains t.utcTimeMinute

/-! ### Job registry -/

/-- A `RecurringMessageTaskCronJob` entry of the `cronJobs` list paired
with the state of its live `CronJob`.  `taskId` is set by the source to
`task.recurringMessageId`; `task` is the task row captured by the
`onTick` closure; `cronTime` is the compiled expression passed to
`CronJob.from`; `running` reflects `start`/`stop` of the `CronJob`
(jobs are created with `start: true` and a stopped job never fires). -/
structure RegJob where
  taskId : Nat
  task : RecurringMessageTask
  cronTime : String
  running : Bool
deriving DecidableEq, Repr

/-- The job `syncCronJobs` pushes for a task: compiled cron expression,
`taskId := task.recurringMessageId`, started immediately. -/
def mkJob (t : RecurringMessageTask) : RegJob :=
  { taskId := t.recurringMessageId
    task := t
    cronTime := cronTabString t
    running := true }

/-- Possible failure of `CronJob.from` on an unrepresentable definition. -/
inductive CronError
  | invalidCronExpression
deriving DecidableEq, Repr

/-- Job construction as the fallible operation it is in the source:
`CronJob.from` throws if the compiled expression is invalid. -/
def mkJobE (t : RecurringMessageTask) : Except CronError RegJob :=
  if representableTask t then .ok (mkJob t) else .error .invalidCronExpression

/-- The module-level `cronJobs` list. -/
structure Registry where
  jobs : List RegJob
deriving DecidableEq, Repr

/-! ### The `syncCronJobs` execution, step by step

`syncCronJobs` is an `async` function running on the single-threaded
cooperative runtime: concurrent readers can only observe the registry
while it is suspended at an `await`.  Its body is the straight-line
operation list below; `settle` is `await sleep(2000)` and `readTasks`
is the awaited repository read (both are suspension points). -/

/-- One atomic operation of the `syncCronJobs` body. -/
inductive Op
  | settle
  | stopAll
  | clear
  | readTasks (db : List RecurringMessageTask)
  | installTask (t : RecurringMessageTask)
deriving DecidableEq, Repr

/-- Whether an operation suspends (an `await`, so other tasks may run
and read the registry while it is pending). -/
def isYield : Op → Bool
  | .settle => true
  | .readTasks _ => true
  | _ => false

/-- Effect of one operation on the registry; `installTask` can raise the
`CronJob.from` error. -/
def stepOp : Op → Registry → Registry × Option CronError
  | .settle, r => (r, none)
  | .stopAll, r => (⟨r.jobs.map (fun j => { j with running := false })⟩, none)
  | .clear, _ => (⟨[]⟩, none)
  | .readTasks _, r => (r, none)
  | .installTask t, r =>
    match mkJobE t with
    | .ok j => (⟨r.jobs ++ [j]⟩, none)
    | .error e => (r, some e)

/-- Run a list of operations; an exception aborts the remaining
operations and propagates (there is no try/catch in `syncCronJobs`). -/
def runOps : List Op → Registry → Registry × Option CronError
  | [], r => (r, none)
  | op :: ops, r =>
    match stepOp op r with
    | (r', none) => runOps ops r'
    | (r', some e) => (r', some e)

/-- The registry states observable to concurrently scheduled tasks: the
registry value at each suspension point, in order. -/
def observables : List Op → Registry → List Registry
  | [], _ => []
  | op :: ops, r =>
    (if isYield op then [r] else []) ++
      match stepOp op r with
      | (r', none) => observables ops r'
      | (_, some _) => []

/-- The body of `syncCronJobs`, with `db` the task rows the awaited read
returns: sleep 2000ms, stop every current job, clear the list, read the
persisted tasks, then build and push one job per task in order. -/
def body (db : List RecurringMessageTask) : List Op :=
  [Op.settle, Op.stopAll, Op.clear, Op.readTasks db] ++ db.map Op.installTask

/-- One complete execution of `syncCronJobs` against a registry, where
`db` is the set of `RecurringMessageTask` rows persisted at the time of
the read (reflecting every write committed before the read). -/
def syncCronJobs (db : List RecurringMessageTask) (r : Registry) :
    Registry × Option CronError :=
  runOps (body db) r

/-! ### Triggering runtime (`onTick`) -/

/-- Failure mode of the `onTick` callback: the source asserts the
`findOne` result non-null with `!`, so a missing row makes
`recurringMessage.channelId` throw a type error, rejecting the tick's
promise. -/
inductive TickError
  | nullDereference
deriving DecidableEq, Repr

/-- The dispatch `onTick` requests from the messaging collaborator:
either a plain text send or an embed send, to the channel fetched by the
stored channel id. -/
inductive DispatchEffect
  | sendText (channelId text : String)
  | sendEmbed (channelId description color : String)
deriving DecidableEq, Repr

/-- The fetch `findOne` by id over the recurring-message table. -/
def findMessage (msgs : List RecurringMessage) (i : Nat) :
    Option RecurringMessage :=
  msgs.find? (fun m => m.id == i)

/-- The `onTick` closure of a scheduled job: re-fetch the
`RecurringMessage` by the captured `recurringMessageId` against the
table as it is at fire time, then send either an embed (description =
text, color = stored color) or the plain text to the stored channel.
The non-null assertion on the fetch result means a missing row raises
a null dereference instead of skipping. -/
def onTick (msgs : List RecurringMessage) (recurringMessageId : Nat) :
    Except TickError DispatchEffect :=
  match findMessage msgs recurringMessageId with
  | none => .error .nullDereference
  | some m =>
    if m.sendAsEmbed then .ok (.sendEmbed m.channelId m.text m.embedColor)
    else .ok (.sendText m.channelId m.text)

/-- The text payload a dispatch carries (body text or embed description). -/
def payloadText : DispatchEffect → String
  | .sendText _ t => t
  | .sendEmbed _ d _ => d

/-- An administrative edit of a recurring message's body text, applied
to the stored table (the admin interface updates the row in place). -/
def editMessageText (msgs : List RecurringMessage) (i : Nat)
    (newText : String) : List RecurringMessage :=
  msgs.map (fun m => if m.id == i then { m with text := newText } else m)

/-! ### Guild reconciliation (`syncServers`) -/

/-- A storage write issued against the relational store. -/
inductive WriteOp
  | insertServer (serverId name : String)
  | updateServer (serverId name : String)
  | deleteServer (serverId : String)
  | deleteKeywords (serverId : String)
  | deleteEmojis (serverId : String)
deriving DecidableEq, Repr

/-- The lookup `client.guilds.cache.get(id)?.name` (the id always comes
from the same cache, so the lookup succeeds; the default is
unreachable). -/
def guildNameOf (live : List Guild) (i : String) : String :=
  ((live.find? (fun g => g.id == i)).map Guild.name).getD ""

/-- The filter `serversIds.filter(id => !stored ids.includes(id))` of guild ids absent from storage. -/
def newlyCreatedServerIds (live : List Guild) (stored : List Server) :
    List String :=
  (live.map Guild.id).filter
    (fun i => !((stored.map Server.serverId).contains i))

/-- The storage writes of the scheduler-bearing revision's
`syncServers`: one insert per live guild absent from storage, and
nothing else. -/
def syncServersWrites (live : List Guild) (stored : List Server) :
    List WriteOp :=
  (newlyCreatedServerIds live stored).map
    (fun i => .insertServer i (guildNameOf live i))

/-- The per-stored-server loop of the earlier revision's `syncServers`:
a server no longer live is deleted together with its dependent keyword
and whitelisted-emoji rows; a still-live server gets an unconditional
name update. -/
def legacyLoopWrites (live : List Guild) (stored : List Server) :
    List WriteOp :=
  stored.flatMap (fun s =>
    if (live.map Guild.id).contains s.serverId then
      [.updateServer s.serverId (guildNameOf live s.serverId)]
    else
      [.deleteKeywords s.serverId, .deleteEmojis s.serverId,
        .deleteServer s.serverId])

/-- The storage writes of the earlier revision's `syncServers`: the
per-server loop, then one insert per live guild absent from storage. -/
def syncServersLegacyWrites (live : List Guild) (stored : List Server) :
    List WriteOp :=
  legacyLoopWrites live stored ++ syncServersWrites live stored

/-- Effect of one write on the stored `Server` table (keyword and emoji
deletes touch other tables and leave this one unchanged). -/
def applyWrite (stored : List Server) : WriteOp → List Server
  | .insertServer i n => stored ++ [⟨i, n⟩]
  | .updateServer i n =>
    stored.map (fun s => if s.serverId == i then { s with name := n } else s)
  | .deleteServer i => stored.filter (fun s => !(s.serverId == i))
  | .deleteKeywords _ => stored
  | .deleteEmojis _ => stored

/-- Apply a sequence of writes in order. -/
def applyWrites (stored : List Server) (ws : List WriteOp) : List Server :=
  ws.foldl applyWrite stored

/-- Whether a write is a name update. -/
def isUpdate : WriteOp → Bool
  | .updateServer _ _ => true
  | _ => false

/-- Whether a write is an insert. -/
def isInsert : WriteOp → Bool
  | .insertServer _ _ => true
  | _ => false

/-- Modelled from the spec's words, for comparison with the compiled
expression: zero-padding a decimal field to two digits. -/
def zeroPad2 (s : String) : String :=
  if s.length < 2 then "0" ++ s else s

/-! ### Lemmas about the compiler -/

theorem startsWithL_self_append (l b : List Char) :
    startsWithL l (l ++ b) = true := by
  induction l with
  | nil => rfl
  | cons c cs ih => simp [startsWithL, ih]

theorem replaceFirstL_cons_ne (p : Char) (ps r : List Char) (c : Char)
    (cs : List Char) (h : p ≠ c) :
    replaceFirstL (p :: ps) r (c :: cs) = c :: replaceFirstL (p :: ps) r cs := by
  have hb : (p == c) = false := beq_false_of_ne h
  simp [replaceFirstL, startsWithL, hb]

theorem replaceFirstL_cons_append (p : Char) (ps r b : List Char) :
    ∀ a : List Char, p ∉ a →
      replaceFirstL (p :: ps) r (a ++ (p :: ps) ++ b) = a ++ r ++ b := by
  intro a
  induction a with
  | nil =>
    intro _
    show replaceFirstL (p :: ps) r ((p :: ps) ++ b) = r ++ b
    have hs : startsWithL (p :: ps) ((p :: ps) ++ b) = true :=
      startsWithL_self_append _ _
    simp only [List.cons_append] at hs ⊢
    simp [replaceFirstL, hs, List.drop_left]
  | cons c a ih =>
    intro h
    have hc : p ≠ c := fun hpc => h (hpc ▸ List.mem_cons_self c a)
    have ha : p ∉ a := fun hpa => h (List.mem_cons_of_mem c hpa)
    calc replaceFirstL (p :: ps) r ((c :: a) ++ (p :: ps) ++ b)
        = c :: replaceFirstL (p :: ps) r (a ++ (p :: ps) ++ b) := by
          simp only [List.cons_append]
          exact replaceFirstL_cons_ne p ps r c _ hc
      _ = c :: (a ++ r ++ b) := by rw [ih ha]
      _ = (c :: a) ++ r ++ b := by simp

theorem replaceFirstL_split (pat r a b s : List Char) (c : Char)
    (hc : pat.head? = some c) (ha : c ∉ a) (hs : s = a ++ pat ++ b) :
    replaceFirstL pat r s = a ++ r ++ b := by
  cases pat with
  | nil => simp at hc
  | cons p ps =>
    have : p = c := by simpa using hc
    subst this
    subst hs
    exact replaceFirstL_cons_append p ps r b a ha

theorem data_append (a b : String) : (a ++ b).data = a.data ++ b.data := rfl

/-- The compiled expression for a task whose minute and hour fields are
brace-free (every persisted field is): the template with the three
fields substituted in place. -/
theorem cronTabString_data (t : RecurringMessageTask)
    (hm : Char.ofNat 123 ∉ t.utcTimeMinute.data)
    (hh : Char.ofNat 123 ∉ t.utcTimeHour.data) :
    (cronTabString t).data =
      "0 ".data ++ t.utcTimeMinute.data ++ " ".data ++ t.utcTimeHour.data ++
        " * * ".data ++ t.dayOfWeek.data := by
  have e1 : replaceFirstL ("\x7bmin\x7d".data) t.utcTimeMinute.data cronTab.data =
      "0 ".data ++ t.utcTimeMinute.data ++ " \x7bhour\x7d * * \x7bday\x7d".data := by
    refine replaceFirstL_split _ _ ("0 ".data) (" \x7bhour\x7d * * \x7bday\x7d".data)
      _ (Char.ofNat 123) rfl (by decide) rfl
  have e2 : replaceFirstL ("\x7bhour\x7d".data) t.utcTimeHour.data
      ("0 ".data ++ t.utcTimeMinute.data ++ " \x7bhour\x7d * * \x7bday\x7d".data) =
      ("0 ".data ++ t.utcTimeMinute.data ++ " ".data) ++ t.utcTimeHour.data ++
        " * * \x7bday\x7d".data := by
    refine replaceFirstL_split _ _ ("0 ".data ++ t.utcTimeMinute.data ++ " ".data)
      (" * * \x7bday\x7d".data) _ (Char.ofNat 123) rfl ?_ ?_
    · intro hmem
      rcases List.mem_append.mp hmem with hmem | hmem
      · rcases List.mem_append.mp hmem with hmem | hmem
        · exact absurd hmem (by decide)
        · exact hm hmem
      · exact absurd hmem (by decide)
    · simp [List.append_assoc]
  have e3 : replaceFirstL ("\x7bday\x7d".data) t.dayOfWeek.data
      (("0 ".data ++ t.utcTimeMinute.data ++ " ".data) ++ t.utcTimeHour.data ++
        " * * \x7bday\x7d".data) =
      (("0 ".data ++ t.utcTimeMinute.data ++ " ".data) ++ t.utcTimeHour.data ++
        " * * ".data) ++ t.dayOfWeek.data ++ [] := by
    refine replaceFirstL_split _ _
      (("0 ".data ++ t.utcTimeMinute.data ++ " ".data) ++ t.utcTimeHour.data ++
        " * * ".data) [] _ (Char.ofNat 123) rfl ?_ ?_
    · intro hmem
      rcases List.mem_append.mp hmem with hmem | hmem
      · rcases List.mem_append.mp hmem with hmem | hmem
        · rcases List.mem_append.mp hmem with hmem | hmem
          · rcases List.mem_append.mp hmem with hmem | hmem
            · exact absurd hmem (by decide)
            · exact hm hmem
          · exact absurd hmem (by decide)
        · exact hh hmem
      · exact absurd hmem (by decide)
    · simp [List.append_assoc]
  show replaceFirstL ("\x7bday\x7d".data) t.dayOfWeek.data
      (replaceFirstL ("\x7bhour\x7d".data) t.utcTimeHour.data
        (replaceFirstL ("\x7bmin\x7d".data) t.utcTimeMinute.data cronTab.data)) = _
  rw [e1, e2, e3]
  simp [List.append_assoc]

/-- String-level form of `cronTabString_data`. -/
theorem cronTabString_concat (t : RecurringMessageTask)
    (hm : Char.ofNat 123 ∉ t.utcTimeMinute.data)
    (hh : Char.ofNat 123 ∉ t.utcTimeHour.data) :
    cronTabString t =
      "0 " ++ t.utcTimeMinute ++ " " ++ t.utcTimeHour ++ " * * " ++ t.dayOfWeek := by
  apply String.ext
  rw [cronTabString_data t hm hh]
  simp [data_append, List.append_assoc]

theorem braceFree_of_mem_minuteValues :
    ∀ s ∈ utcTimeMinuteValues, Char.ofNat 123 ∉ s.data := by decide

theorem braceFree_of_mem_hourValues :
    ∀ s ∈ utcTimeHourValues, Char.ofNat 123 ∉ s.data := by decide

theorem dayValue_shape :
    ∀ s ∈ dayOfWeekValues, s = "*" ∨ s.length = 3 := by decide

/-! ### Lemmas about the `syncCronJobs` execution -/

theorem syncCronJobs_eq_install (db : List RecurringMessageTask) (r : Registry) :
    syncCronJobs db r = runOps (db.map Op.installTask) ⟨[]⟩ := by
  simp [syncCronJobs, body, runOps, stepOp]

theorem runOps_install_ok (ts : List RecurringMessageTask) :
    ∀ acc : List RegJob, (∀ t ∈ ts, representableTask t = true) →
      runOps (ts.map Op.installTask) ⟨acc⟩ = (⟨acc ++ ts.map mkJob⟩, none) := by
  induction ts with
  | nil => intro acc _; simp [runOps]
  | cons t ts ih =>
    intro acc h
    have ht : representableTask t = true := h t (List.mem_cons_self t ts)
    have hts : ∀ t' ∈ ts, representableTask t' = true :=
      fun t' ht' => h t' (List.mem_cons_of_mem t ht')
    simp [runOps, stepOp, mkJobE, ht, ih (acc ++ [mkJob t]) hts]

theorem mem_runOps_install (ts : List RecurringMessageTask) :
    ∀ acc : List RegJob, ∀ j ∈ (runOps (ts.map Op.installTask) ⟨acc⟩).1.jobs,
      j ∈ acc ∨ ∃ t ∈ ts, j = mkJob t := by
  induction ts with
  | nil =>
    intro acc j hj
    exact Or.inl (by simpa [runOps] using hj)
  | cons t ts ih =>
    intro acc j hj
    by_cases ht : representableTask t = true
    · rw [List.map_cons] at hj
      simp only [runOps, stepOp, mkJobE, ht, if_pos] at hj
      rcases ih (acc ++ [mkJob t]) j hj with hmem | ⟨t', ht', rfl⟩
      · rcases List.mem_append.mp hmem with hmem | hmem
        · exact Or.inl hmem
        · exact Or.inr ⟨t, List.mem_cons_self t ts, by simpa using hmem⟩
      · exact Or.inr ⟨t', List.mem_cons_of_mem t ht', rfl⟩
    · rw [List.map_cons] at hj
      simp only [runOps, stepOp, mkJobE, ht, if_neg, Bool.not_eq_true] at hj
      exact Or.inl (by simpa using hj)

theorem runOps_install_abort (bad : RecurringMessageTask)
    (post : List RecurringMessageTask) (hbad : representableTask bad = false) :
    ∀ (pre : List RecurringMessageTask) (acc : List RegJob),
      (∀ t ∈ pre, representableTask t = true) →
      runOps ((pre ++ bad :: post).map Op.installTask) ⟨acc⟩ =
        (⟨acc ++ pre.map mkJob⟩, some .invalidCronExpression) := by
  intro pre
  induction pre with
  | nil =>
    intro acc _
    simp [runOps, stepOp, mkJobE, hbad]
  | cons t ts ih =>
    intro acc h
    have ht : representableTask t = true := h t (List.mem_cons_self t ts)
    have hts : ∀ t' ∈ ts, representableTask t' = true :=
      fun t' ht' => h t' (List.mem_cons_of_mem t ht')
    have hrec := ih (acc ++ [mkJob t]) hts
    simp only [List.map_append, List.map_cons] at hrec
    simp [runOps, stepOp, mkJobE, ht, hrec]

theorem observables_install (ts : List RecurringMessageTask) :
    ∀ r : Registry, observables (ts.map Op.installTask) r = [] := by
  induction ts with
  | nil => intro r; rfl
  | cons t ts ih =>
    intro r
    by_cases ht : representableTask t = true
    · simp [observables, stepOp, isYield, mkJobE, ht, ih]
    · simp [observables, stepOp, isYield, mkJobE, ht]

/-- During one `syncCronJobs` execution, exactly two registry states are
observable to concurrently scheduled tasks: the untouched previous
generation (during the settle delay) and the emptied list (during the
awaited database read, after the old generation was stopped and cleared
but before any new job exists). -/
theorem observables_body (db : List RecurringMessageTask) (r : Registry) :
    observables (body db) r = [r, ⟨[]⟩] := by
  simp [observables, body, stepOp, isYield, observables_install]

theorem body_get_one (db : List RecurringMessageTask) :
    (body db).get? 1 = some Op.stopAll := rfl

theorem stopAll_before_install (db : List RecurringMessageTask) (k : Nat)
    (t : RecurringMessageTask)
    (hk : (body db).get? k = some (Op.installTask t)) :
    ∃ i < k, (body db).get? i = some Op.stopAll := by
  match k with
  | 0 => simp [body, List.get?] at hk
  | 1 => simp [body, List.get?] at hk
  | (k + 2) => exact ⟨1, by omega, body_get_one db⟩

theorem settle_before_read (db : List RecurringMessageTask) (i : Nat)
    (db' : List RecurringMessageTask)
    (hi : (body db).get? i = some (Op.readTasks db')) :
    ∃ j < i, (body db).get? j = some Op.settle := by
  match i with
  | 0 => simp [body, List.get?] at hi
  | (i + 1) => exact ⟨0, Nat.succ_pos i, rfl⟩

theorem task_of_mem_sync (db : List RecurringMessageTask) (r : Registry) :
    ∀ j ∈ (syncCronJobs db r).1.jobs, j.task ∈ db := by
  intro j hj
  rw [syncCronJobs_eq_install] at hj
  rcases mem_runOps_install db [] j hj with hmem | ⟨t, ht, rfl⟩
  · simp at hmem
  · simpa [mkJob] using ht

/-! ### Lemmas about the triggering runtime -/

theorem findMessage_edit (msgs : List RecurringMessage) (i : Nat)
    (newText : String) :
    findMessage (editMessageText msgs i newText) i =
      (findMessage msgs i).map (fun m => { m with text := newText }) := by
  induction msgs with
  | nil => rfl
  | cons m ms ih =>
    by_cases hm : (m.id == i) = true
    · have h1 : editMessageText (m :: ms) i newText =
          { m with text := newText } :: editMessageText ms i newText := by
        show (if (m.id == i) = true then _ else _) :: _ = _
        rw [if_pos hm]
        rfl
      have h2 : findMessage ({ m with text := newText } ::
          editMessageText ms i newText) i = some { m with text := newText } :=
        List.find?_cons_of_pos _ (by simpa using hm)
      have h3 : findMessage (m :: ms) i = some m :=
        List.find?_cons_of_pos _ hm
      rw [h1, h2, h3]
      rfl
    · have h1 : editMessageText (m :: ms) i newText =
          m :: editMessageText ms i newText := by
        show (if (m.id == i) = true then _ else _) :: _ = _
        rw [if_neg hm]
        rfl
      have h2 : findMessage (m :: editMessageText ms i newText) i =
          findMessage (editMessageText ms i newText) i :=
        List.find?_cons_of_neg _ hm
      have h3 : findMessage (m :: ms) i = findMessage ms i :=
        List.find?_cons_of_neg _ hm
      rw [h1, h2, h3, ih]

/-! ### Lemmas about guild reconciliation -/

theorem contains_iff_mem (l : List String) (a : String) :
    l.contains a = true ↔ a ∈ l := by
  simp

/-- Ids of the stored server rows. -/
def sidList (stored : List Server) : List String :=
  stored.map Server.serverId

theorem applyWrites_cons (stored : List Server) (op : WriteOp)
    (ops : List WriteOp) :
    applyWrites stored (op :: ops) = applyWrites (applyWrite stored op) ops := rfl

theorem applyWrites_append (stored : List Server) (a b : List WriteOp) :
    applyWrites stored (a ++ b) = applyWrites (applyWrites stored a) b := by
  simp [applyWrites, List.foldl_append]

/-- Applying a batch of inserts appends the corresponding rows. -/
theorem applyWrites_inserts (f : String → String) :
    ∀ (ids : List String) (stored : List Server),
      applyWrites stored (ids.map (fun i => .insertServer i (f i))) =
        stored ++ ids.map (fun i => ⟨i, f i⟩) := by
  intro ids
  induction ids with
  | nil => intro stored; simp [applyWrites]
  | cons i ids ih =>
    intro stored
    simp [applyWrites_cons, applyWrite, ih]

theorem mem_sidList_applyWrite (stored : List Server) (op : WriteOp)
    (i : String) (h : i ∈ sidList (applyWrite stored op)) :
    i ∈ sidList stored ∨ ∃ n, op = .insertServer i n := by
  cases op with
  | insertServer i' n =>
    simp only [applyWrite, sidList, List.map_append] at h
    rcases List.mem_append.mp h with h | h
    · exact Or.inl h
    · simp at h
      exact Or.inr ⟨n, by rw [h]⟩
  | updateServer i' n =>
    simp only [applyWrite, sidList, List.map_map] at h
    rcases List.mem_map.mp h with ⟨s, hs, hsid⟩
    refine Or.inl (List.mem_map.mpr ⟨s, hs, ?_⟩)
    by_cases hcond : (s.serverId == i') = true <;>
      simp [Function.comp, hcond] at hsid <;> simp [hsid]
  | deleteServer i' =>
    simp only [applyWrite, sidList] at h
    rcases List.mem_map.mp h with ⟨s, hs, hsid⟩
    exact Or.inl (List.mem_map.mpr ⟨s, (List.mem_filter.mp hs).1, hsid⟩)
  | deleteKeywords i' => exact Or.inl h
  | deleteEmojis i' => exact Or.inl h

theorem mem_sidList_applyWrites (ops : List WriteOp) :
    ∀ (stored : List Server) (i : String),
      i ∈ sidList (applyWrites stored ops) →
      i ∈ sidList stored ∨ ∃ n, WriteOp.insertServer i n ∈ ops := by
  induction ops with
  | nil => intro stored i h; exact Or.inl h
  | cons op ops ih =>
    intro stored i h
    rw [applyWrites_cons] at h
    rcases ih (applyWrite stored op) i h with h | ⟨n, hn⟩
    · rcases mem_sidList_applyWrite stored op i h with h | ⟨n, rfl⟩
      · exact Or.inl h
      · exact Or.inr ⟨n, List.mem_cons_self _ _⟩
    · exact Or.inr ⟨n, List.mem_cons_of_mem op hn⟩

/-- An id never inserted stays absent under any sequence of writes. -/
theorem not_mem_sidList_applyWrites (ops : List WriteOp) (stored : List Server)
    (i : String) (hne : i ∉ sidList stored)
    (hnoins : ∀ n, WriteOp.insertServer i n ∉ ops) :
    i ∉ sidList (applyWrites stored ops) := by
  intro h
  rcases mem_sidList_applyWrites ops stored i h with h | ⟨n, hn⟩
  · exact hne h
  · exact hnoins n hn

theorem mem_sidList_applyWrite_of_mem (stored : List Server) (op : WriteOp)
    (i : String) (h : i ∈ sidList stored) (hnd : op ≠ .deleteServer i) :
    i ∈ sidList (applyWrite stored op) := by
  cases op with
  | insertServer i' n =>
    simp only [applyWrite, sidList, List.map_append]
    exact List.mem_append.mpr (Or.inl h)
  | updateServer i' n =>
    rcases List.mem_map.mp h with ⟨s, hs, hsid⟩
    simp only [applyWrite, sidList, List.map_map]
    refine List.mem_map.mpr ⟨s, hs, ?_⟩
    simp only [Function.comp_apply]
    by_cases hcond : (s.serverId == i') = true
    · rw [if_pos hcond]; exact hsid
    · rw [if_neg hcond]; exact hsid
  | deleteServer i' =>
    rcases List.mem_map.mp h with ⟨s, hs, hsid⟩
    have hii : s.serverId ≠ i' := by
      intro hcontra
      exact hnd (by rw [← hsid, hcontra])
    refine List.mem_map.mpr ⟨s, List.mem_filter.mpr ⟨hs, ?_⟩, hsid⟩
    simp [hii]
  | deleteKeywords i' => exact h
  | deleteEmojis i' => exact h

/-- An id present and never deleted stays present under any sequence of
writes. -/
theorem mem_sidList_applyWrites_of_mem (ops : List WriteOp) :
    ∀ (stored : List Server) (i : String), i ∈ sidList stored →
      WriteOp.deleteServer i ∉ ops →
      i ∈ sidList (applyWrites stored ops) := by
  induction ops with
  | nil => intro stored i h _; exact h
  | cons op ops ih =>
    intro stored i h hnd
    rw [applyWrites_cons]
    refine ih (applyWrite stored op) i ?_ (fun hmem => hnd (List.mem_cons_of_mem op hmem))
    exact mem_sidList_applyWrite_of_mem stored op i h
      (fun heq => hnd (heq ▸ List.mem_cons_self op ops))

theorem mem_newlyCreated (live : List Guild) (stored : List Server)
    (i : String) :
    i ∈ newlyCreatedServerIds live stored ↔
      i ∈ live.map Guild.id ∧ i ∉ sidList stored := by
  simp [newlyCreatedServerIds, List.mem_filter, sidList]

theorem newlyCreated_nil (live : List Guild) (stored : List Server)
    (h : ∀ g ∈ live.map Guild.id, g ∈ sidList stored) :
    newlyCreatedServerIds live stored = [] := by
  unfold newlyCreatedServerIds
  rw [List.filter_eq_nil_iff]
  intro i hi
  have hcont := (contains_iff_mem (stored.map Server.serverId) i).mpr (h i hi)
  rw [hcont]
  simp

theorem sidList_append_inserts (stored : List Server) (ids : List String)
    (f : String → String) :
    sidList (stored ++ ids.map (fun i => ⟨i, f i⟩)) = sidList stored ++ ids := by
  have hfun : (Server.serverId ∘ fun i => ({ serverId := i, name := f i } : Server)) = id := rfl
  simp [sidList, List.map_map, hfun]

/-- Applying the insert-only writes appends exactly the missing rows. -/
theorem applyWrites_syncServersWrites (live : List Guild)
    (stored : List Server) :
    applyWrites stored (syncServersWrites live stored) =
      stored ++ (newlyCreatedServerIds live stored).map
        (fun i => ⟨i, guildNameOf live i⟩) :=
  applyWrites_inserts (guildNameOf live) (newlyCreatedServerIds live stored) stored

theorem live_mem_after_syncServersWrites (live : List Guild)
    (stored : List Server) (g : String) (hg : g ∈ live.map Guild.id) :
    g ∈ sidList (applyWrites stored (syncServersWrites live stored)) := by
  rw [applyWrites_syncServersWrites, sidList_append_inserts]
  by_cases hs : g ∈ sidList stored
  · exact List.mem_append.mpr (Or.inl hs)
  · exact List.mem_append.mpr (Or.inr ((mem_newlyCreated live stored g).mpr ⟨hg, hs⟩))

/-- The scheduler-bearing `syncServers` is write-idempotent: a second
call against the storage state produced by the first issues no writes. -/
theorem syncServersWrites_idempotent (live : List Guild)
    (stored : List Server) :
    syncServersWrites live
      (applyWrites stored (syncServersWrites live stored)) = [] := by
  unfold syncServersWrites
  rw [newlyCreated_nil]
  · rfl
  · exact fun g hg => live_mem_after_syncServersWrites live stored g hg

theorem loop_no_insert (live : List Guild) (stored : List Server) :
    ∀ op ∈ legacyLoopWrites live stored, isInsert op = false := by
  intro op hop
  rcases List.mem_flatMap.mp hop with ⟨s, _, hmem⟩
  by_cases hc : ((live.map Guild.id).contains s.serverId) = true
  · rw [if_pos hc] at hmem
    simp at hmem
    simp [hmem, isInsert]
  · rw [if_neg hc] at hmem
    simp at hmem
    rcases hmem with h | h | h <;> simp [h, isInsert]

theorem insert_mem_legacy (live : List Guild) (stored : List Server)
    (i n : String) (h : WriteOp.insertServer i n ∈ syncServersLegacyWrites live stored) :
    i ∈ live.map Guild.id := by
  rcases List.mem_append.mp h with h | h
  · have := loop_no_insert live stored _ h
    simp [isInsert] at this
  · rcases List.mem_map.mp h with ⟨i', hi', heq⟩
    have hii : i' = i := by
      injection heq with h1 h2
    exact hii ▸ ((mem_newlyCreated live stored i').mp hi').1

theorem delete_not_mem_legacy (live : List Guild) (stored : List Server)
    (i : String) (hi : i ∈ live.map Guild.id) :
    WriteOp.deleteServer i ∉ syncServersLegacyWrites live stored := by
  intro h
  rcases List.mem_append.mp h with h | h
  · rcases List.mem_flatMap.mp h with ⟨s, hs, hmem⟩
    by_cases hc : ((live.map Guild.id).contains s.serverId) = true
    · rw [if_pos hc] at hmem
      simp at hmem
    · rw [if_neg hc] at hmem
      have hii : i = s.serverId := by simpa using hmem
      refine hc ?_
      rw [← hii]
      exact (contains_iff_mem _ _).mpr hi
  · rcases List.mem_map.mp h with ⟨i', _, heq⟩
    exact absurd heq (by simp)

/-- After a legacy `syncServers` pass, a stored server that is no longer
live has been removed entirely. -/
theorem stale_removed_legacy (live : List Guild) (stored : List Server)
    (i : String) (hstored : i ∈ sidList stored) (hlive : i ∉ live.map Guild.id) :
    i ∉ sidList (applyWrites stored (syncServersLegacyWrites live stored)) := by
  rcases List.mem_map.mp hstored with ⟨s₀, hs₀, hsid⟩
  rcases List.append_of_mem hs₀ with ⟨u, v, huv⟩
  have hc : ((live.map Guild.id).contains s₀.serverId) = false := by
    rw [← Bool.not_eq_true]
    intro hcontra
    exact hlive (hsid ▸ (contains_iff_mem _ _).mp hcontra)
  have hdecomp : syncServersLegacyWrites live stored =
      (legacyLoopWrites live u ++ [.deleteKeywords i, .deleteEmojis i]) ++
        (WriteOp.deleteServer i ::
          (legacyLoopWrites live v ++ syncServersWrites live stored)) := by
    rw [syncServersLegacyWrites, huv]
    rw [show legacyLoopWrites live (u ++ s₀ :: v) =
        legacyLoopWrites live u ++
          ((if (live.map Guild.id).contains s₀.serverId then
            [.updateServer s₀.serverId (guildNameOf live s₀.serverId)]
          else
            [.deleteKeywords s₀.serverId, .deleteEmojis s₀.serverId,
              .deleteServer s₀.serverId]) ++ legacyLoopWrites live v) from by
      simp [legacyLoopWrites]]
    rw [if_neg (fun hcontra => Bool.false_ne_true (hc ▸ hcontra)), hsid]
    simp [List.append_assoc]
  rw [hdecomp, applyWrites_append, applyWrites_cons]
  set s₁ := applyWrites stored
    (legacyLoopWrites live u ++ [.deleteKeywords i, .deleteEmojis i]) with hs₁
  have habsent : i ∉ sidList (applyWrite s₁ (.deleteServer i)) := by
    intro hmem
    rcases List.mem_map.mp hmem with ⟨s', hs', hsid'⟩
    have hfilter := (List.mem_filter.mp hs').2
    rw [hsid'] at hfilter
    simp at hfilter
  refine not_mem_sidList_applyWrites _ _ _ habsent ?_
  intro n hn
  rcases List.mem_append.mp hn with hn | hn
  · have := loop_no_insert live v _ hn
    simp [isInsert] at this
  · exact hlive (insert_mem_legacy live stored i n
      (List.mem_append.mpr (Or.inr hn)))

/-- After a legacy `syncServers` pass, every live guild id is stored. -/
theorem live_mem_after_legacy (live : List Guild) (stored : List Server)
    (g : String) (hg : g ∈ live.map Guild.id) :
    g ∈ sidList (applyWrites stored (syncServersLegacyWrites live stored)) := by
  by_cases hs : g ∈ sidList stored
  · exact mem_sidList_applyWrites_of_mem _ stored g hs
      (delete_not_mem_legacy live stored g hg)
  · rw [syncServersLegacyWrites, applyWrites_append]
    have happly : applyWrites (applyWrites stored (legacyLoopWrites live stored))
        (syncServersWrites live stored) =
        applyWrites stored (legacyLoopWrites live stored) ++
          (newlyCreatedServerIds live stored).map
            (fun i => ⟨i, guildNameOf live i⟩) :=
      applyWrites_inserts (guildNameOf live) (newlyCreatedServerIds live stored)
        (applyWrites stored (legacyLoopWrites live stored))
    rw [happly, sidList_append_inserts]
    exact List.mem_append.mpr
      (Or.inr ((mem_newlyCreated live stored g).mpr ⟨hg, hs⟩))

/-- Every server stored after a legacy `syncServers` pass is live. -/
theorem stored_sid_live_after_legacy (live : List Guild) (stored : List Server)
    (i : String)
    (h : i ∈ sidList (applyWrites stored (syncServersLegacyWrites live stored))) :
    i ∈ live.map Guild.id := by
  rcases mem_sidList_applyWrites _ stored i h with hmem | ⟨n, hn⟩
  · by_cases hL : i ∈ live.map Guild.id
    · exact hL
    · exact absurd h (stale_removed_legacy live stored i hmem hL)
  · exact insert_mem_legacy live stored i n hn

/-- A second legacy `syncServers` call with unchanged platform state
issues only name updates (one per stored server): no inserts, no
deletes, but also not zero writes. -/
theorem legacy_second_call_updates (live : List Guild) (stored : List Server) :
    ∀ w ∈ syncServersLegacyWrites live
      (applyWrites stored (syncServersLegacyWrites live stored)),
      isUpdate w = true := by
  intro w hw
  rcases List.mem_append.mp hw with hw | hw
  · rcases List.mem_flatMap.mp hw with ⟨s, hs, hmem⟩
    have hsid : s.serverId ∈ live.map Guild.id :=
      stored_sid_live_after_legacy live stored s.serverId
        (List.mem_map_of_mem Server.serverId hs)
    rw [if_pos ((contains_iff_mem _ _).mpr hsid)] at hmem
    simp at hmem
    simp [hmem, isUpdate]
  · have hnil : newlyCreatedServerIds live
        (applyWrites stored (syncServersLegacyWrites live stored)) = [] :=
      newlyCreated_nil live _ (fun g hg => live_mem_after_legacy live stored g hg)
    rw [show syncServersWrites live
        (applyWrites stored (syncServersLegacyWrites live stored)) =
        (newlyCreatedServerIds live
          (applyWrites stored (syncServersLegacyWrites live stored))).map
          (fun i => .insertServer i (guildNameOf live i)) from rfl] at hw
    rw [hnil] at hw
    simp at hw


/-! ### Concrete sample data used by witnesses and counterexamples -/

/-- The spec's scenario task: Monday, 09:00 UTC (fields as stored). -/
def stTask : RecurringMessageTask := ⟨1, 5, "MON", "9", "0"⟩

/-- The spec's scenario message: plain text "Standup" to channel `chan42`. -/
def stMsg : RecurringMessage := ⟨5, "srv1", "chan42", "Standup", false, "#f7981d"⟩

/-- A second, well-formed task. -/
def goodTask2 : RecurringMessageTask := ⟨3, 7, "TUE", "10", "30"⟩

/-- A task whose day-of-week field is not representable as a trigger. -/
def badTask : RecurringMessageTask := ⟨2, 6, "FUNDAY", "9", "0"⟩

/-- A job of a previous generation. -/
def oldJob : RegJob := mkJob ⟨2, 7, "TUE", "8", "30"⟩

/-- A one-guild live set. -/
def liveA : List Guild := [⟨"A", "Alpha"⟩]

/-! ### Claim theorems -/

/-- Claim C1: after a `syncCronJobs` call completes, the `cronJobs` list
contains exactly one job per task row read from storage (in order, one
`mkJob` per row), and no job at all for a task absent from that read —
in particular none for a definition deleted before the call began, since
the read happens after the call begins and reflects every committed
deletion. -/
theorem claim_C1 (db : List RecurringMessageTask) (r : Registry)
    (hrep : ∀ t ∈ db, representableTask t = true) :
    syncCronJobs db r = (⟨db.map mkJob⟩, none) ∧
    (syncCronJobs db r).1.jobs.map RegJob.task = db ∧
    (∀ t : RecurringMessageTask, t ∉ db →
      ∀ j ∈ (syncCronJobs db r).1.jobs, j.task ≠ t) := by
  have hmain : syncCronJobs db r = (⟨db.map mkJob⟩, none) := by
    rw [syncCronJobs_eq_install]
    simpa using runOps_install_ok db [] hrep
  refine ⟨hmain, ?_, ?_⟩
  · rw [hmain]
    show (db.map mkJob).map RegJob.task = db
    rw [List.map_map]
    have hcomp : RegJob.task ∘ mkJob = id := rfl
    rw [hcomp, List.map_id]
  · intro t ht j hj heq
    exact ht (heq ▸ task_of_mem_sync db r j hj)

/-- Witness for C1 at a concrete one-task database. -/
theorem claim_C1_witness :
    (∀ t ∈ [stTask], representableTask t = true) ∧
    (syncCronJobs [stTask] ⟨[]⟩ = (⟨[stTask].map mkJob⟩, none) ∧
      (syncCronJobs [stTask] ⟨[]⟩).1.jobs.map RegJob.task = [stTask] ∧
      (∀ t : RecurringMessageTask, t ∉ [stTask] →
        ∀ j ∈ (syncCronJobs [stTask] ⟨[]⟩).1.jobs, j.task ≠ t)) :=
  ⟨by decide, claim_C1 [stTask] ⟨[]⟩ (by decide)⟩

/-- Claim C2 counterexample: with one old job and one new task, the
registry state at the awaited database read — after the old generation
was stopped and cleared, before any new job was installed — is the empty
list, observable to concurrent readers and different from both the old
and the new generation, refuting "no partial or interleaved registry
state is observable". -/
theorem claim_C2_counterexample :
    observables (body [stTask]) ⟨[oldJob]⟩ = [⟨[oldJob]⟩, ⟨[]⟩] ∧
    (⟨[]⟩ : Registry) ∈ observables (body [stTask]) ⟨[oldJob]⟩ ∧
    (⟨[]⟩ : Registry) ≠ ⟨[oldJob]⟩ ∧
    (⟨[]⟩ : Registry) ≠ ⟨[stTask].map mkJob⟩ ∧
    (syncCronJobs [stTask] ⟨[oldJob]⟩).1 = ⟨[stTask].map mkJob⟩ := by decide

/-- Claim C2 (amended): within one `syncCronJobs` execution the stop of
the old generation precedes every installation of a new job, the stop
marks every old job non-running (a stopped job cannot fire), but the
registry emptied of old jobs and not yet holding the new ones IS
observable to concurrent readers while the database read is awaited. -/
theorem claim_C2_amended (db : List RecurringMessageTask) (r : Registry)
    (k : Nat) (t : RecurringMessageTask) :
    ((body db).get? k = some (Op.installTask t) →
      ∃ i < k, (body db).get? i = some Op.stopAll) ∧
    (∀ j ∈ (stepOp Op.stopAll r).1.jobs, j.running = false) ∧
    observables (body db) r = [r, ⟨[]⟩] := by
  refine ⟨stopAll_before_install db k t, ?_, observables_body db r⟩
  intro j hj
  simp only [stepOp] at hj
  rcases List.mem_map.mp hj with ⟨j₀, _, rfl⟩
  rfl

/-- Witness for the amended C2 at a concrete execution. -/
theorem claim_C2_amended_witness :
    (∃ i < 4, (body [stTask]).get? i = some Op.stopAll) ∧
    (∀ j ∈ (stepOp Op.stopAll ⟨[oldJob]⟩).1.jobs, j.running = false) ∧
    observables (body [stTask]) ⟨[oldJob]⟩ = [⟨[oldJob]⟩, ⟨[]⟩] :=
  ⟨(claim_C2_amended [stTask] ⟨[oldJob]⟩ 4 stTask).1 (by decide),
   (claim_C2_amended [stTask] ⟨[oldJob]⟩ 4 stTask).2.1,
   (claim_C2_amended [stTask] ⟨[oldJob]⟩ 4 stTask).2.2⟩

/-- Claim C3: for every persisted task the compiler produces the
six-field expression `0 minute hour * * day` (second fixed at zero,
month and day-of-month wildcards, fields substituted verbatim); the task
Monday 09:00 compiles to `0 0 9 * * MON`, and firing it against the
message `Standup` with the embed flag off dispatches a plain-text send
of `Standup` to the stored channel. -/
theorem claim_C3 :
    (∀ t : RecurringMessageTask,
      t.utcTimeMinute ∈ utcTimeMinuteValues →
      t.utcTimeHour ∈ utcTimeHourValues →
      t.dayOfWeek ∈ dayOfWeekValues →
      cronTabString t =
        "0 " ++ t.utcTimeMinute ++ " " ++ t.utcTimeHour ++ " * * " ++
          t.dayOfWeek) ∧
    cronTabString stTask = "0 0 9 * * MON" ∧
    onTick [stMsg] (mkJob stTask).taskId =
      .ok (.sendText "chan42" "Standup") := by
  refine ⟨?_, by decide, rfl⟩
  intro t hm hh _
  exact cronTabString_concat t (braceFree_of_mem_minuteValues _ hm)
    (braceFree_of_mem_hourValues _ hh)

/-- Witness for C3's universal part at the scenario task. -/
theorem claim_C3_witness :
    stTask.utcTimeMinute ∈ utcTimeMinuteValues ∧
    stTask.utcTimeHour ∈ utcTimeHourValues ∧
    stTask.dayOfWeek ∈ dayOfWeekValues ∧
    cronTabString stTask =
      "0 " ++ stTask.utcTimeMinute ++ " " ++ stTask.utcTimeHour ++ " * * " ++
        stTask.dayOfWeek :=
  ⟨by decide, by decide, by decide,
    claim_C3.1 stTask (by decide) (by decide) (by decide)⟩

/-- Claim C4 counterexample: at a fire whose message row no longer
exists, the fresh fetch returns nothing and the tick callback raises a
null-dereference error (the source asserts the fetch result non-null),
refuting "no error is raised or propagated". -/
theorem claim_C4_counterexample :
    findMessage [] 5 = none ∧
    onTick [] 5 = Except.error TickError.nullDereference ∧
    ¬ (∀ e, onTick [] 5 ≠ Except.error e) :=
  ⟨rfl, rfl, fun h => h TickError.nullDereference rfl⟩

/-- Claim C4 (amended): when the referenced message no longer exists at
fire time, nothing is dispatched, but the fire is not a clean no-op: the
callback dereferences the null fetch result and raises an error that
rejects the tick's promise. -/
theorem claim_C4_amended (msgs : List RecurringMessage) (i : Nat)
    (h : findMessage msgs i = none) :
    onTick msgs i = Except.error TickError.nullDereference ∧
    ∀ e, onTick msgs i ≠ Except.ok e := by
  have hrw : onTick msgs i = Except.error TickError.nullDereference := by
    unfold onTick
    rw [h]
  refine ⟨hrw, ?_⟩
  intro e heq
  rw [hrw] at heq
  exact Except.noConfusion heq

/-- Witness for the amended C4 at an empty message table. -/
theorem claim_C4_amended_witness :
    findMessage [] 5 = none ∧
    (onTick [] 5 = Except.error TickError.nullDereference ∧
      ∀ e, onTick [] 5 ≠ Except.ok e) :=
  ⟨rfl, claim_C4_amended [] 5 rfl⟩

/-- Claim C5 counterexample: with tasks good, bad, good in that order
and exactly the middle one unrepresentable, the pass installs only the
first good task's job, raises the construction error, and never installs
the second good task's job — refuting "still installs jobs for all the
other definitions". -/
theorem claim_C5_counterexample :
    representableTask badTask = false ∧
    representableTask stTask = true ∧
    representableTask goodTask2 = true ∧
    syncCronJobs [stTask, badTask, goodTask2] ⟨[]⟩ =
      (⟨[mkJob stTask]⟩, some CronError.invalidCronExpression) ∧
    mkJob goodTask2 ∉ (syncCronJobs [stTask, badTask, goodTask2] ⟨[]⟩).1.jobs := by
  decide

/-- Claim C5 (amended): a malformed definition aborts the remainder of
the reconciliation pass: the tasks before it in iteration order are
installed, it and every later task are omitted, and the error propagates
out of `syncCronJobs`. -/
theorem claim_C5_amended (r : Registry) (pre post : List RecurringMessageTask)
    (bad : RecurringMessageTask)
    (hpre : ∀ t ∈ pre, representableTask t = true)
    (hbad : representableTask bad = false) :
    syncCronJobs (pre ++ bad :: post) r =
      (⟨pre.map mkJob⟩, some CronError.invalidCronExpression) := by
  rw [syncCronJobs_eq_install]
  simpa using runOps_install_abort bad post hbad pre [] hpre

/-- Witness for the amended C5 at a concrete good-bad-good database. -/
theorem claim_C5_amended_witness :
    (∀ t ∈ [stTask], representableTask t = true) ∧
    representableTask badTask = false ∧
    syncCronJobs ([stTask] ++ badTask :: [goodTask2]) ⟨[]⟩ =
      (⟨[stTask].map mkJob⟩, some CronError.invalidCronExpression) :=
  ⟨by decide, by decide,
    claim_C5_amended ⟨[]⟩ [stTask] [goodTask2] badTask (by decide) (by decide)⟩

/-- Claim C6: the scheduled job captures only the message identity
(`taskId` is the `recurringMessageId`), and a fire after an edit of the
message's body text dispatches the edited text — the payload is re-read
from storage at fire time, not taken from any value captured at schedule
time. -/
theorem claim_C6 (msgs : List RecurringMessage) (t : RecurringMessageTask)
    (m : RecurringMessage) (newText : String)
    (hfind : findMessage msgs t.recurringMessageId = some m) :
    (mkJob t).taskId = t.recurringMessageId ∧
    (onTick (editMessageText msgs t.recurringMessageId newText)
        (mkJob t).taskId).toOption.map payloadText = some newText := by
  refine ⟨rfl, ?_⟩
  have hedit : findMessage (editMessageText msgs t.recurringMessageId newText)
      t.recurringMessageId = some { m with text := newText } := by
    rw [findMessage_edit, hfind]
    rfl
  show (onTick (editMessageText msgs t.recurringMessageId newText)
      t.recurringMessageId).toOption.map payloadText = some newText
  unfold onTick
  rw [hedit]
  cases hbool : m.sendAsEmbed <;>
    simp [hbool, payloadText, Except.toOption]

/-- Witness for C6: editing the scenario message to "Retro" makes the
next fire dispatch "Retro". -/
theorem claim_C6_witness :
    findMessage [stMsg] stTask.recurringMessageId = some stMsg ∧
    ((mkJob stTask).taskId = stTask.recurringMessageId ∧
      (onTick (editMessageText [stMsg] stTask.recurringMessageId "Retro")
          (mkJob stTask).taskId).toOption.map payloadText = some "Retro") :=
  ⟨rfl, claim_C6 [stMsg] stTask stMsg "Retro" rfl⟩

/-- Claim C7 counterexample: with one live guild and empty storage, the
second call of the earlier revision's `syncServers` (storage unchanged
in between) issues an unconditional name update — a storage write —
refuting "no additional storage writes on the second call". -/
theorem claim_C7_counterexample :
    syncServersLegacyWrites liveA
        (applyWrites [] (syncServersLegacyWrites liveA [])) =
      [WriteOp.updateServer "A" "Alpha"] ∧
    syncServersLegacyWrites liveA
        (applyWrites [] (syncServersLegacyWrites liveA [])) ≠ [] := by
  decide

/-- Claim C7 (amended): the scheduler-bearing revision's `syncServers`
is write-idempotent (a second call with unchanged platform state issues
no writes at all); the earlier revision issues no inserts and no deletes
on the second call but re-issues a name update for every stored server,
so it is not write-idempotent. -/
theorem claim_C7_amended (live : List Guild) (stored : List Server) :
    syncServersWrites live (applyWrites stored (syncServersWrites live stored)) = [] ∧
    (∀ w ∈ syncServersLegacyWrites live
        (applyWrites stored (syncServersLegacyWrites live stored)),
      isUpdate w = true) :=
  ⟨syncServersWrites_idempotent live stored, legacy_second_call_updates live stored⟩

/-- Witness for the amended C7 at a concrete live set. -/
theorem claim_C7_amended_witness :
    syncServersWrites liveA (applyWrites [] (syncServersWrites liveA [])) = [] ∧
    isUpdate (WriteOp.updateServer "A" "Alpha") = true :=
  ⟨(claim_C7_amended liveA []).1,
   (claim_C7_amended liveA []).2 (WriteOp.updateServer "A" "Alpha") (by decide)⟩

/-- Claim C8 counterexample: the admin value "9" is a legal hour field;
the scenario task compiles to `0 0 9 * * MON`, which differs from the
two-digit zero-padded form `0 00 09 * * MON`, and the substituted hour
has one digit, refuting "hour and minute are zero-padded decimal (two
digits)". -/
theorem claim_C8_counterexample :
    "9" ∈ utcTimeHourValues ∧
    representableTask stTask = true ∧
    cronTabString stTask = "0 0 9 * * MON" ∧
    cronTabString stTask ≠
      "0 " ++ zeroPad2 stTask.utcTimeMinute ++ " " ++
        zeroPad2 stTask.utcTimeHour ++ " * * " ++ stTask.dayOfWeek ∧
    stTask.utcTimeHour.length ≠ 2 := by
  decide

/-- Claim C8 (amended): the hour and minute fields are substituted into
the compiled expression verbatim as the stored unpadded decimal strings
(single digit for values below ten), and the day-of-week field is the
every-day wildcard or one of the fixed three-letter symbols. -/
theorem claim_C8_amended (t : RecurringMessageTask)
    (hm : t.utcTimeMinute ∈ utcTimeMinuteValues)
    (hh : t.utcTimeHour ∈ utcTimeHourValues)
    (hd : t.dayOfWeek ∈ dayOfWeekValues) :
    cronTabString t =
      "0 " ++ t.utcTimeMinute ++ " " ++ t.utcTimeHour ++ " * * " ++
        t.dayOfWeek ∧
    (t.dayOfWeek = "*" ∨ t.dayOfWeek.length = 3) :=
  ⟨cronTabString_concat t (braceFree_of_mem_minuteValues _ hm)
      (braceFree_of_mem_hourValues _ hh),
    dayValue_shape _ hd⟩

/-- Witness for the amended C8 at a concrete task. -/
theorem claim_C8_amended_witness :
    goodTask2.utcTimeMinute ∈ utcTimeMinuteValues ∧
    goodTask2.utcTimeHour ∈ utcTimeHourValues ∧
    goodTask2.dayOfWeek ∈ dayOfWeekValues ∧
    (cronTabString goodTask2 =
      "0 " ++ goodTask2.utcTimeMinute ++ " " ++ goodTask2.utcTimeHour ++
        " * * " ++ goodTask2.dayOfWeek ∧
      (goodTask2.dayOfWeek = "*" ∨ goodTask2.dayOfWeek.length = 3)) :=
  ⟨by decide, by decide, by decide,
    claim_C8_amended goodTask2 (by decide) (by decide) (by decide)⟩

/-- Claim C9: in the `syncCronJobs` body the settle delay precedes the
database read, so the read reflects every deletion committed before or
during the delay; consequently a task absent from the read database has
no job in the new generation (whether or not the pass errors later). -/
theorem claim_C9 (db : List RecurringMessageTask) (r : Registry) (i : Nat)
    (db' : List RecurringMessageTask) :
    ((body db).get? i = some (Op.readTasks db') →
      ∃ j < i, (body db).get? j = some Op.settle) ∧
    (∀ t : RecurringMessageTask, t ∉ db →
      ∀ j ∈ (syncCronJobs db r).1.jobs, j.task ≠ t) := by
  refine ⟨settle_before_read db i db', ?_⟩
  intro t ht j hj heq
  exact ht (heq ▸ task_of_mem_sync db r j hj)

/-- Witness for C9: at the concrete one-task database the read sits at
index 3 after the settle delay at index 0, and the deleted `badTask` has
no job. -/
theorem claim_C9_witness :
    (∃ j < 3, (body [stTask]).get? j = some Op.settle) ∧
    (∀ j ∈ (syncCronJobs [stTask] ⟨[]⟩).1.jobs, j.task ≠ badTask) :=
  ⟨(claim_C9 [stTask] ⟨[]⟩ 3 [stTask]).1 (by decide),
   (claim_C9 [stTask] ⟨[]⟩ 3 [stTask]).2 badTask (by decide)⟩

/-- Claim C10: the scheduler-bearing revision's `syncServers` performs
only inserts on the stored server table — one per live guild absent from
storage, carrying the live display name — and leaves every existing row
untouched (no deletes of server rows or dependents, no name updates), so
the stored set never shrinks. -/
theorem claim_C10 (live : List Guild) (stored : List Server) :
    (∀ w ∈ syncServersWrites live stored, isInsert w = true) ∧
    applyWrites stored (syncServersWrites live stored) =
      stored ++ (newlyCreatedServerIds live stored).map
        (fun i => ⟨i, guildNameOf live i⟩) ∧
    (∀ s ∈ stored, s ∈ applyWrites stored (syncServersWrites live stored)) ∧
    (∀ i, i ∈ newlyCreatedServerIds live stored ↔
      (i ∈ live.map Guild.id ∧ i ∉ stored.map Server.serverId)) := by
  refine ⟨?_, applyWrites_syncServersWrites live stored, ?_, ?_⟩
  · intro w hw
    rcases List.mem_map.mp hw with ⟨i, _, rfl⟩
    rfl
  · intro s hs
    rw [applyWrites_syncServersWrites]
    exact List.mem_append.mpr (Or.inl hs)
  · intro i
    exact mem_newlyCreated live stored i

/-- Witness for C10 at a concrete live set and empty storage. -/
theorem claim_C10_witness :
    isInsert (WriteOp.insertServer "A" "Alpha") = true ∧
    applyWrites [] (syncServersWrites liveA []) =
      [] ++ (newlyCreatedServerIds liveA []).map
        (fun i => ⟨i, guildNameOf liveA i⟩) ∧
    ("A" ∈ newlyCreatedServerIds liveA [] ↔
      ("A" ∈ liveA.map Guild.id ∧ "A" ∉ ([] : List Server).map Server.serverId)) :=
  ⟨(claim_C10 liveA []).1 (WriteOp.insertServer "A" "Alpha") (by decide),
   (claim_C10 liveA []).2.1,
   (claim_C10 liveA []).2.2.2 "A"⟩

end Sched
